import Mathlib

/-!
Verification development for the spicedb membership-set algebra with
conditional (caveated) membership, and for the dispatch depth guard and
debug-trace conversion.

The dispatch code (`CheckDepth`, `convertCheckTrace`,
`ConvertDispatchDebugInformation`) is embedded from
`internal/dispatch/dispatch.go` and `internal/dispatch/debug.go`.
The membership-set algebra itself (`internal/graph/membershipset.go` and the
`internal/caveats` combinators) is not part of the available sources — only
its test file is — so those definitions are modelled from the specification
and cross-checked against the concrete expectations of the test file.
-/

namespace SpiceDB

/-- Modelled from the spec: a caveat reference `C` is a pair of a caveat name
and an ordered map of pre-bound context values (`core.ContextualizedCaveat`
in the repository). Context values are JSON-like; they only matter here up to
structural equality, so they are represented as strings. -/
structure ContextualizedCaveat where
  name : String
  context : List (String × String)
deriving DecidableEq, Repr

/-- Modelled from the spec: a caveat expression `E` is either a leaf caveat
reference or an OR/AND/NOT operation node. The spec's combinators (§4.1) only
ever construct OR and AND nodes with exactly two children and NOT nodes with
one child, so the operations are represented with that arity; operand order
is the constructor's argument order. -/
inductive CaveatExpr where
  | leaf (c : ContextualizedCaveat)
  | cor (a b : CaveatExpr)
  | cand (a b : CaveatExpr)
  | cnot (a : CaveatExpr)
deriving DecidableEq, Repr

/-- Modelled from the spec: an operand of a caveat combinator is either `⊤`
(unconditionally true, "no expression"), the expression-typed `None` (never
true, arising only as an algebraic identity inside the combinators), or a
concrete caveat expression. -/
inductive COperand where
  | ctop
  | cnone
  | cexpr (e : CaveatExpr)
deriving DecidableEq, Repr

/-- Modelled from the spec: the `OR` combinator. If either operand is `⊤` the
result is `⊤`; a `None` operand is the identity; otherwise an OR node with the
operands in the given order. -/
def cOr : COperand → COperand → COperand
  | .ctop, _ => .ctop
  | _, .ctop => .ctop
  | .cnone, b => b
  | a, .cnone => a
  | .cexpr a, .cexpr b => .cexpr (.cor a b)

/-- Modelled from the spec: the `AND` combinator. A `⊤` operand is the
identity; if either operand is `None` the result is `None`; otherwise an AND
node with the operands in the given order. -/
def cAnd : COperand → COperand → COperand
  | .ctop, b => b
  | a, .ctop => a
  | .cnone, _ => .cnone
  | _, .cnone => .cnone
  | .cexpr a, .cexpr b => .cexpr (.cand a b)

/-- Modelled from the spec: the `NOT` combinator (`caveats.Invert` in the
repository). `NOT ⊤ = None`, `NOT None = ⊤`, otherwise a NOT node. -/
def cNot : COperand → COperand
  | .ctop => .cnone
  | .cnone => .ctop
  | .cexpr a => .cexpr (.cnot a)

/-- Modelled from the spec: a membership entry for a resource is either
`Determined` (member unconditionally) or `Conditional e` (member iff the
caveat expression `e` holds). -/
inductive MembershipEntry where
  | determined
  | conditional (e : CaveatExpr)
deriving DecidableEq, Repr

/-- Modelled from the spec: a membership set is a mapping from resource
identifier to membership entry, here an association list. Keys of a set built
through the operations are unique; insertion order is not significant and all
properties are stated through `findEntry`. -/
abbrev MembershipSet : Type := List (String × MembershipEntry)

/-- Lookup of the entry stored for `id`, if any (Go map indexing). -/
def findEntry : MembershipSet → String → Option MembershipEntry
  | [], _ => none
  | (k, v) :: rest, id => if k = id then some v else findEntry rest id

/-- Store `e` as the entry for `id`: replace the first binding of `id` if one
exists, otherwise append a new binding (Go map assignment). -/
def setEntry : MembershipSet → String → MembershipEntry → MembershipSet
  | [], id, e => [(id, e)]
  | (k, v) :: rest, id, e =>
    if k = id then (k, e) :: rest else (k, v) :: setEntry rest id e

/-- The entry denoted by an optional caveat argument: no caveat means
`Determined`, a caveat means `Conditional`. -/
def entryOfCaveat : Option CaveatExpr → MembershipEntry
  | none => .determined
  | some e => .conditional e

/-- Modelled from the spec: `AddDirectMember(id, caveat?)`. Absent ids are
inserted with the given caveat (or `Determined` when none); a `Determined`
entry stays `Determined`; a `Conditional` entry is upgraded to `Determined`
by a caveat-less addition and otherwise combined with `OR(existing, new)`. -/
def addDirectMember (ms : MembershipSet) (id : String) (cav : Option CaveatExpr) :
    MembershipSet :=
  match findEntry ms id with
  | none => setEntry ms id (entryOfCaveat cav)
  | some .determined => ms
  | some (.conditional eold) =>
    match cav with
    | none => setEntry ms id .determined
    | some enew => setEntry ms id (.conditional (.cor eold enew))

/-- The `⊤`-or-expression operand denoted by an optional caveat argument. -/
def operandOfCaveat : Option CaveatExpr → COperand
  | none => .ctop
  | some e => .cexpr e

/-- The optional caveat denoted by a combinator result at the membership
layer. `cnone` does not arise there (the membership operations only feed the
combinators `⊤` or concrete expressions); it is mapped to "no caveat" for
totality. -/
def caveatOfOperand : COperand → Option CaveatExpr
  | .ctop => none
  | .cnone => none
  | .cexpr e => some e

/-- Modelled from the spec:
`AddMemberViaRelationship(id, resource_caveat?, relationship_caveat?)`.
The edge caveat is `AND(relationship_caveat, resource_caveat)` — relationship
caveat first — built with the `AND` combinator's identity rules, and the
result is merged with the `AddDirectMember` policy. -/
def addMemberViaRelationship (ms : MembershipSet) (id : String)
    (resourceCaveat relationshipCaveat : Option CaveatExpr) : MembershipSet :=
  addDirectMember ms id
    (caveatOfOperand
      (cAnd (operandOfCaveat relationshipCaveat) (operandOfCaveat resourceCaveat)))

/-- Modelled from the spec: the per-id merge performed by `UnionWith` for an
incoming entry, identical to the `AddDirectMember` policy with OR operand
order `(existing, incoming)`. -/
def mergeUnion (ms : MembershipSet) (id : String) (incoming : MembershipEntry) :
    MembershipSet :=
  match findEntry ms id with
  | none => setEntry ms id incoming
  | some .determined => ms
  | some (.conditional e1) =>
    match incoming with
    | .determined => setEntry ms id .determined
    | .conditional e2 => setEntry ms id (.conditional (.cor e1 e2))

/-- Modelled from the spec: `UnionWith(other_map)` folds every binding of the
other map into `self` with the `AddDirectMember` merge policy. -/
def unionWith (ms other : MembershipSet) : MembershipSet :=
  other.foldl (fun acc p => mergeUnion acc p.1 p.2) ms

/-- Modelled from the spec: the entry kept by `IntersectWith` for an id
present on both sides: a `Determined` side yields the other side's entry, two
conditionals conjoin as `AND(self, other)`. -/
def intersectEntry : MembershipEntry → MembershipEntry → MembershipEntry
  | .determined, e2 => e2
  | .conditional e1, .determined => .conditional e1
  | .conditional e1, .conditional e2 => .conditional (.cand e1 e2)

/-- Modelled from the spec: `IntersectWith(other_map)` keeps exactly the ids
of `self` that also appear in `other_map`, with entries merged by
`intersectEntry`. -/
def intersectWith (ms other : MembershipSet) : MembershipSet :=
  ms.filterMap (fun p =>
    match findEntry other p.1 with
    | none => none
    | some e2 => some (p.1, intersectEntry p.2 e2))

/-- Modelled from the spec: the entry kept by `Subtract` for an id of `self`,
given the other side's entry at that id, if any. A `Determined` exclusion
removes the id; a conditional exclusion `e2` turns `Determined` into
`NOT(e2)` and `Conditional e1` into `AND(e1, NOT(e2))`. -/
def subtractEntry : MembershipEntry → Option MembershipEntry → Option MembershipEntry
  | e1, none => some e1
  | _, some .determined => none
  | .determined, some (.conditional e2) => some (.conditional (.cnot e2))
  | .conditional e1, some (.conditional e2) =>
    some (.conditional (.cand e1 (.cnot e2)))

/-- Modelled from the spec: `Subtract(other_map)` rewrites or removes every
entry of `self` according to `subtractEntry`. -/
def subtract (ms other : MembershipSet) : MembershipSet :=
  ms.filterMap (fun p => (subtractEntry p.2 (findEntry other p.1)).map (fun e => (p.1, e)))

/-- Modelled from the spec: `HasDeterminedMember()` — some entry is
`Determined`. -/
def hasDeterminedMember (ms : MembershipSet) : Bool :=
  ms.any (fun p => p.2 = .determined)

/-- Modelled from the spec: `IsEmpty()` — the mapping has no entries. -/
def isEmpty (ms : MembershipSet) : Bool :=
  ms.isEmpty

/-- The keys of a membership set are pairwise distinct — the invariant of a
Go map, used where an operation folds over the other map binding by
binding. -/
def keysNodup (ms : MembershipSet) : Prop :=
  (ms.map Prod.fst).Nodup

instance (ms : MembershipSet) : Decidable (keysNodup ms) := by
  unfold keysNodup; infer_instance

/-! Dispatch depth guard, embedded from `src/internal/dispatch/dispatch.go`. -/

/-- Resolver metadata carried by every dispatch request
(`v1.ResolverMeta`). `DepthRemaining` is a u32 counter; the guard only
compares it with zero, so it is represented as a natural number. -/
structure ResolverMeta where
  DepthRemaining : Nat
deriving DecidableEq, Repr

/-- The two errors `CheckDepth` can return: the `request missing metadata`
error and `ErrMaxDepth` (`max depth exceeded`). -/
inductive DispatchError where
  | requestMissingMetadata
  | errMaxDepth
deriving DecidableEq, Repr

/-- Embedding of `CheckDepth` (`dispatch.go`). A request is represented by
its metadata field (`GetMetadata`, `nil` ↦ `none`); `none` as a result means
the dispatch is permitted. -/
def CheckDepth (metadata : Option ResolverMeta) : Option DispatchError :=
  match metadata with
  | none => some .requestMissingMetadata
  | some m => if m.DepthRemaining = 0 then some .errMaxDepth else none

/-! Debug-trace conversion, embedded from `src/internal/dispatch/debug.go`. -/

/-- `core.RelationReference`: namespace and relation of the checked
resource. -/
structure RelationReference where
  Namespace : String
  Relation : String
deriving DecidableEq, Repr

/-- `core.ObjectAndRelation`: the subject of a dispatched check. -/
structure ObjectAndRelation where
  Namespace : String
  ObjectId : String
  Relation : String
deriving DecidableEq, Repr

/-- The fields of `v1.DispatchCheckRequest` read by `convertCheckTrace`. -/
structure DispatchCheckRequestData where
  ResourceRelation : RelationReference
  ResourceIds : List String
  Subject : ObjectAndRelation
deriving DecidableEq, Repr

/-- `dispatch.ResourceCheckResult.Membership`. -/
inductive Membership where
  | unknown
  | notMember
  | member
  | caveatedMember
deriving DecidableEq, Repr

/-- The field of `dispatch.ResourceCheckResult` read by
`convertCheckTrace`. -/
structure ResourceCheckResult where
  Membership : Membership
deriving DecidableEq, Repr

/-- `dispatch.CheckDebugTrace`'s resource relation type enum. -/
inductive DebugTraceRelationType where
  | unknownRelationType
  | relation
  | permission
deriving DecidableEq, Repr

/-- `dispatch.CheckDebugTrace`: the internal debug trace,
with `Results` as an association list (a Go map) and nested
sub-problem traces. -/
inductive CheckDebugTrace where
  | mk (Request : DispatchCheckRequestData)
       (ResourceRelationType : DebugTraceRelationType)
       (Results : List (String × ResourceCheckResult))
       (IsCachedResult : Bool)
       (SubProblems : List CheckDebugTrace)

def CheckDebugTrace.Request : CheckDebugTrace → DispatchCheckRequestData
  | .mk req _ _ _ _ => req

def CheckDebugTrace.Results : CheckDebugTrace → List (String × ResourceCheckResult)
  | .mk _ _ results _ _ => results

def CheckDebugTrace.IsCachedResult : CheckDebugTrace → Bool
  | .mk _ _ _ cached _ => cached

def CheckDebugTrace.SubProblems : CheckDebugTrace → List CheckDebugTrace
  | .mk _ _ _ _ subs => subs

/-- `v1.CheckDebugTrace_Permissionship` of the public API. -/
inductive Permissionship where
  | unspecified
  | noPermission
  | hasPermission
deriving DecidableEq, Repr

/-- `v1.CheckDebugTrace_PermissionType` of the public API. -/
inductive PermissionType where
  | unspecified
  | permission
  | relation
deriving DecidableEq, Repr

/-- `v1.ObjectReference`. -/
structure ObjectReference where
  ObjectType : String
  ObjectId : String
deriving DecidableEq, Repr

/-- `v1.SubjectReference`. -/
structure SubjectReference where
  Object : ObjectReference
  OptionalRelation : String
deriving DecidableEq, Repr

mutual
/-- `v1.CheckDebugTrace` of the public API, with its `Resolution` oneof. -/
inductive CheckDebugTraceV1 where
  | mk (Resource : ObjectReference)
       (Permission : String)
       (PermissionType : PermissionType)
       (Subject : SubjectReference)
       (Result : Permissionship)
       (Resolution : ResolutionV1)

/-- The `Resolution` oneof of the public `v1.CheckDebugTrace`: either the
sub-problem traces or the was-cached-result flag. -/
inductive ResolutionV1 where
  | subProblems (traces : List CheckDebugTraceV1)
  | wasCachedResult (flag : Bool)
end

def CheckDebugTraceV1.Resource : CheckDebugTraceV1 → ObjectReference
  | .mk r _ _ _ _ _ => r

def CheckDebugTraceV1.Result : CheckDebugTraceV1 → Permissionship
  | .mk _ _ _ _ res _ => res

def CheckDebugTraceV1.Resolution : CheckDebugTraceV1 → ResolutionV1
  | .mk _ _ _ _ _ r => r

/-- Go map indexing `ct.Results[resourceID]`. -/
def lookupResult : List (String × ResourceCheckResult) → String → Option ResourceCheckResult
  | [], _ => none
  | (k, v) :: rest, id => if k = id then some v else lookupResult rest id

/-- `tuple.Ellipsis`. -/
def ellipsis : String := "..."

mutual
/-- Embedding of `convertCheckTrace` (`debug.go`): for every resource id of
the trace's request, appends a trace entry whose resolution carries the
converted sub-problem traces (only when sub-problems exist), then a trace
entry whose resolution carries the was-cached-result flag. -/
def convertCheckTrace : CheckDebugTrace → List CheckDebugTraceV1
  | .mk req rrt results cached subs =>
    let permissionType : PermissionType :=
      if rrt = .permission then .permission
      else if rrt = .relation then .relation
      else .unspecified
    let subRelation : String :=
      if req.Subject.Relation = ellipsis then "" else req.Subject.Relation
    let subTraces := convertCheckTraceList subs
    req.ResourceIds.flatMap (fun resourceID =>
      let result : Permissionship :=
        match lookupResult results resourceID with
        | some found =>
          if found.Membership = .member then .hasPermission else .noPermission
        | none => .noPermission
      let base : ResolutionV1 → CheckDebugTraceV1 := fun res =>
        .mk ⟨req.ResourceRelation.Namespace, resourceID⟩
          req.ResourceRelation.Relation
          permissionType
          ⟨⟨req.Subject.Namespace, req.Subject.ObjectId⟩, subRelation⟩
          result
          res
      (if subs.isEmpty then [] else [base (.subProblems subTraces)])
        ++ [base (.wasCachedResult cached)])

/-- The concatenation of the conversions of a list of sub-problem traces
(the inner loop of `convertCheckTrace`). -/
def convertCheckTraceList : List CheckDebugTrace → List CheckDebugTraceV1
  | [] => []
  | t :: rest => convertCheckTrace t ++ convertCheckTraceList rest
end

/-- The `DebugInfo` field of `dispatch.ResponseMeta`, reduced to the part
`ConvertDispatchDebugInformation` reads. -/
structure DebugInformationData where
  Check : CheckDebugTrace

/-- `dispatch.ResponseMeta`, reduced to the part
`ConvertDispatchDebugInformation` reads. -/
structure ResponseMeta where
  DebugInfo : Option DebugInformationData

/-- `v1.DebugInformation` of the public API. -/
structure DebugInformationV1 where
  Check : CheckDebugTraceV1
  SchemaUsed : String

/-- Embedding of `ConvertDispatchDebugInformation` (`debug.go`). The
datastore reader and schema generator are external collaborators; the
generated schema text is passed in as `schema`. The result is `some none`
when the metadata has no debug info (the Go `nil, nil` return), `some (some d)`
on success, and `none` when indexing element 0 of the converted trace list
is out of bounds — the Go code would panic there. -/
def ConvertDispatchDebugInformation (metadata : ResponseMeta) (schema : String) :
    Option (Option DebugInformationV1) :=
  match metadata.DebugInfo with
  | none => some none
  | some debugInfo =>
    match convertCheckTrace debugInfo.Check with
    | [] => none
    | t :: _ => some (some ⟨t, schema.trim⟩)

/-! Concrete fixtures used to instantiate theorems with hypotheses. -/

/-- A concrete dispatched check request: `document:view` for subject
`user:tom` over the single resource id `doc1`. -/
def exReq : DispatchCheckRequestData :=
  ⟨⟨"document", "view"⟩, ["doc1"], ⟨"user", "tom", "..."⟩⟩

/-- A concrete sub-problem trace with no further sub-problems. -/
def exSubTrace : CheckDebugTrace :=
  .mk exReq .relation [("doc1", ⟨.member⟩)] false []

/-- A concrete trace with one resource id and one sub-problem. -/
def exTraceC8 : CheckDebugTrace :=
  .mk exReq .permission [("doc1", ⟨.member⟩)] true [exSubTrace]

/-- A concrete trace whose single resource id is a caveated member. -/
def exTraceC9 : CheckDebugTrace :=
  .mk exReq .relation [("doc1", ⟨.caveatedMember⟩)] false []

/-- The one entry `convertCheckTrace` produces for `exTraceC9`: the caveated
membership is reported as `noPermission`. -/
def exEntryC9 : CheckDebugTraceV1 :=
  .mk ⟨"document", "doc1"⟩ "view" .relation ⟨⟨"user", "tom"⟩, ""⟩ .noPermission
    (.wasCachedResult false)

/-! Helper lemmas on the association-list operations. -/

theorem findEntry_setEntry_self (ms : MembershipSet) (id : String) (e : MembershipEntry) :
    findEntry (setEntry ms id e) id = some e := by
  induction ms with
  | nil => simp [setEntry, findEntry]
  | cons p rest ih =>
    obtain ⟨k, v⟩ := p
    by_cases hk : k = id
    · simp [setEntry, hk, findEntry]
    · simp [setEntry, hk, findEntry, ih]

theorem findEntry_setEntry_ne (ms : MembershipSet) (id id' : String) (e : MembershipEntry)
    (h : id' ≠ id) : findEntry (setEntry ms id e) id' = findEntry ms id' := by
  induction ms with
  | nil => simp [setEntry, findEntry, Ne.symm h]
  | cons p rest ih =>
    obtain ⟨k, v⟩ := p
    by_cases hk : k = id
    · subst hk
      simp [setEntry, findEntry, Ne.symm h]
    · simp [setEntry, hk, findEntry, ih]

theorem findEntry_eq_none_of_not_mem_keys (ms : MembershipSet) (id : String)
    (h : id ∉ ms.map Prod.fst) : findEntry ms id = none := by
  induction ms with
  | nil => rfl
  | cons p rest ih =>
    obtain ⟨k, v⟩ := p
    simp only [List.map_cons, List.mem_cons, not_or] at h
    show (if k = id then some v else findEntry rest id) = none
    rw [if_neg (fun he => h.1 he.symm)]
    exact ih h.2

theorem findEntry_append_of_none (l1 l2 : MembershipSet) (id : String)
    (h : findEntry l1 id = none) : findEntry (l1 ++ l2) id = findEntry l2 id := by
  induction l1 with
  | nil => rfl
  | cons p rest ih =>
    obtain ⟨k, v⟩ := p
    by_cases hk : k = id
    · simp [findEntry, hk] at h
    · simp only [findEntry, hk, if_false, List.cons_append] at h ⊢
      simp [findEntry, hk, ih h]

theorem setEntry_append_of_none (ms : MembershipSet) (id : String) (e : MembershipEntry)
    (h : findEntry ms id = none) : setEntry ms id e = ms ++ [(id, e)] := by
  induction ms with
  | nil => rfl
  | cons p rest ih =>
    obtain ⟨k, v⟩ := p
    by_cases hk : k = id
    · simp [findEntry, hk] at h
    · simp only [findEntry, hk, if_false] at h
      simp [setEntry, hk, ih h]

theorem subtract_cons (k : String) (v : MembershipEntry) (rest other : MembershipSet) :
    subtract ((k, v) :: rest) other =
      match subtractEntry v (findEntry other k) with
      | none => subtract rest other
      | some e => (k, e) :: subtract rest other := by
  cases h : subtractEntry v (findEntry other k) <;>
    simp [subtract, List.filterMap_cons, h]

theorem intersectWith_cons (k : String) (v : MembershipEntry) (rest other : MembershipSet) :
    intersectWith ((k, v) :: rest) other =
      match findEntry other k with
      | none => intersectWith rest other
      | some e2 => (k, intersectEntry v e2) :: intersectWith rest other := by
  cases h : findEntry other k <;>
    simp [intersectWith, List.filterMap_cons, h]

theorem findEntry_mergeUnion_self (ms : MembershipSet) (id : String) (inc : MembershipEntry) :
    findEntry (mergeUnion ms id inc) id =
      match findEntry ms id, inc with
      | none, _ => some inc
      | some .determined, _ => some .determined
      | some (.conditional _), .determined => some .determined
      | some (.conditional e1), .conditional e2 => some (.conditional (.cor e1 e2)) := by
  unfold mergeUnion
  cases h : findEntry ms id with
  | none => simp [findEntry_setEntry_self]
  | some e =>
    cases e with
    | determined => simpa using h
    | conditional e1 => cases inc <;> simp [findEntry_setEntry_self]

theorem findEntry_mergeUnion_ne (ms : MembershipSet) (id id' : String) (inc : MembershipEntry)
    (h : id' ≠ id) : findEntry (mergeUnion ms id inc) id' = findEntry ms id' := by
  unfold mergeUnion
  cases findEntry ms id with
  | none => exact findEntry_setEntry_ne _ _ _ _ h
  | some e =>
    cases e with
    | determined => rfl
    | conditional e1 => cases inc <;> exact findEntry_setEntry_ne _ _ _ _ h

theorem unionWith_cons (ms : MembershipSet) (k : String) (e0 : MembershipEntry)
    (rest : MembershipSet) :
    unionWith ms ((k, e0) :: rest) = unionWith (mergeUnion ms k e0) rest := rfl

theorem unionWith_disjoint (other : MembershipSet) :
    ∀ acc : MembershipSet, keysNodup other →
    (∀ id ∈ other.map Prod.fst, findEntry acc id = none) →
    unionWith acc other = acc ++ other := by
  induction other with
  | nil => intro acc _ _; simp [unionWith]
  | cons p rest ih =>
    intro acc hnd hdisj
    obtain ⟨k, e0⟩ := p
    simp only [keysNodup, List.map_cons, List.nodup_cons] at hnd
    have hk : findEntry acc k = none := hdisj k (by simp)
    have hmerge : mergeUnion acc k e0 = acc ++ [(k, e0)] := by
      unfold mergeUnion
      rw [hk]
      exact setEntry_append_of_none acc k e0 hk
    rw [unionWith_cons, hmerge]
    rw [ih (acc ++ [(k, e0)]) hnd.2 ?_]
    · simp
    · intro id hid
      have hne : id ≠ k := fun he => hnd.1 (he ▸ hid)
      rw [findEntry_append_of_none _ _ _ (hdisj id (by simp [hid]))]
      simp [findEntry, Ne.symm hne]

/-! Claim theorems for the membership-set algebra. -/

/-- C1: `AddDirectMember(id, caveat?)` follows exactly the four-case merge
policy: an absent id is inserted with the given caveat (`Determined` when
none); a `Determined` entry stays `Determined` regardless of the new caveat;
a `Conditional` entry becomes `Determined` when the new entry carries no
caveat, and otherwise `Conditional (OR(e_old, e_new))` with the operands in
exactly that order. -/
theorem addDirectMember_merge_policy (ms : MembershipSet) (id : String)
    (cav : Option CaveatExpr) :
    findEntry (addDirectMember ms id cav) id =
      match findEntry ms id, cav with
      | none, none => some .determined
      | none, some e => some (.conditional e)
      | some .determined, _ => some .determined
      | some (.conditional _), none => some .determined
      | some (.conditional eold), some enew => some (.conditional (.cor eold enew)) := by
  unfold addDirectMember
  cases h : findEntry ms id with
  | none => cases cav <;> simp [findEntry_setEntry_self, entryOfCaveat]
  | some e =>
    cases e with
    | determined => simpa using h
    | conditional eold => cases cav <;> simp [findEntry_setEntry_self]

/-- C2: `Subtract(other_map)` removes or rewrites every id of `self` by the
exclusion table: ids absent from the other map are unchanged; an id present
on both sides is removed whenever the other side is `Determined`; a
`Determined` self entry against `Conditional e` becomes
`Conditional (NOT e)`; a `Conditional e1` self entry against
`Conditional e2` becomes `Conditional (AND(e1, NOT e2))` in that operand
order. -/
theorem subtract_exclusion_table (ms other : MembershipSet) (id : String) :
    findEntry (subtract ms other) id =
      match findEntry ms id, findEntry other id with
      | none, _ => none
      | some e1, none => some e1
      | some _, some .determined => none
      | some .determined, some (.conditional e2) => some (.conditional (.cnot e2))
      | some (.conditional e1), some (.conditional e2) =>
        some (.conditional (.cand e1 (.cnot e2))) := by
  induction ms with
  | nil => rfl
  | cons p rest ih =>
    obtain ⟨k, v⟩ := p
    rw [subtract_cons]
    by_cases hk : k = id
    · subst hk
      cases ho : findEntry other k with
      | none => cases v <;> simp [subtractEntry, ho, findEntry]
      | some e2 =>
        cases e2 with
        | determined =>
          cases v <;>
            · simp only [subtractEntry, ho]
              rw [ih, ho]
              rcases hr : findEntry rest k with _ | e1
              · simp [findEntry]
              · cases e1 <;> simp [findEntry, ho]
        | conditional e2 =>
          cases v <;> simp [subtractEntry, ho, findEntry]
    · cases ho : findEntry other k with
      | none =>
        cases v <;> simp [subtractEntry, ho, findEntry, hk, ih]
      | some e2 =>
        cases v <;> cases e2 <;>
          simp [subtractEntry, ho, findEntry, hk, ih]

/-- C3: `IntersectWith(other_map)` keeps exactly the ids present on both
sides: ids of `self` missing from the other map are removed; for a surviving
id a `Determined` side yields the other side's entry (`Determined` when both
are), and two conditionals conjoin as `Conditional (AND(e1, e2))` with
operand order `(self, other)`. -/
theorem intersectWith_overlap_table (ms other : MembershipSet) (id : String) :
    findEntry (intersectWith ms other) id =
      match findEntry ms id, findEntry other id with
      | none, _ => none
      | some _, none => none
      | some .determined, some e2 => some e2
      | some (.conditional e1), some .determined => some (.conditional e1)
      | some (.conditional e1), some (.conditional e2) =>
        some (.conditional (.cand e1 e2)) := by
  induction ms with
  | nil => rfl
  | cons p rest ih =>
    obtain ⟨k, v⟩ := p
    rw [intersectWith_cons]
    by_cases hk : k = id
    · subst hk
      cases ho : findEntry other k with
      | none =>
        simp only [ho]
        rw [ih, ho]
        rcases hr : findEntry rest k with _ | e1
        · simp [findEntry]
        · cases e1 <;> simp [findEntry, ho]
      | some e2 =>
        cases v <;> cases e2 <;> simp [intersectEntry, ho, findEntry]
    · cases ho : findEntry other k with
      | none => simp [ho, findEntry, hk, ih]
      | some e2 => simp [intersectEntry, ho, findEntry, hk, ih]

/-- C4: `UnionWith(other_map)` inserts every id of the other map that is
absent from `self` with the incoming entry, and merges every id present on
both sides exactly as `AddDirectMember` does: `Determined` absorbs, two
conditionals combine with `OR` in operand order `(existing, incoming)`. The
other map is a Go map, so its keys are pairwise distinct. -/
theorem unionWith_merge_policy (ms other : MembershipSet) (id : String)
    (h : keysNodup other) :
    findEntry (unionWith ms other) id =
      match findEntry ms id, findEntry other id with
      | e, none => e
      | none, some e2 => some e2
      | some .determined, some _ => some .determined
      | some (.conditional _), some .determined => some .determined
      | some (.conditional e1), some (.conditional e2) =>
        some (.conditional (.cor e1 e2)) := by
  induction other generalizing ms with
  | nil =>
    show findEntry ms id = _
    rcases findEntry ms id with _ | e
    · rfl
    · cases e <;> rfl
  | cons p rest ih =>
    obtain ⟨k, e0⟩ := p
    simp only [keysNodup, List.map_cons, List.nodup_cons] at h
    rw [unionWith_cons, ih _ h.2]
    by_cases hid : id = k
    · subst hid
      rw [findEntry_eq_none_of_not_mem_keys rest id h.1]
      rw [findEntry_mergeUnion_self]
      show _ = (match findEntry ms id, if id = id then some e0 else findEntry rest id with
        | e, none => e
        | none, some e2 => some e2
        | some .determined, some _ => some .determined
        | some (.conditional _), some .determined => some .determined
        | some (.conditional e1), some (.conditional e2) =>
          some (.conditional (.cor e1 e2)) : Option MembershipEntry)
      rw [if_pos rfl]
      rcases findEntry ms id with _ | e <;> [skip; cases e] <;> cases e0 <;> rfl
    · rw [findEntry_mergeUnion_ne _ _ _ _ hid]
      show _ = (match findEntry ms id, if k = id then some e0 else findEntry rest id with
        | e, none => e
        | none, some e2 => some e2
        | some .determined, some _ => some .determined
        | some (.conditional _), some .determined => some .determined
        | some (.conditional e1), some (.conditional e2) =>
          some (.conditional (.cor e1 e2)) : Option MembershipEntry)
      rw [if_neg (fun he => hid he.symm)]

/-- C5: `AddMemberViaRelationship(id, resource_caveat?, relationship_caveat?)`
first conjoins the caveats as `AND(relationship_caveat, resource_caveat)` —
relationship caveat first, with the `AND` combinator's identity rules when
either operand is absent — and then merges the resulting edge caveat with
exactly the `AddDirectMember` policy. -/
theorem addMemberViaRelationship_edge_caveat (ms : MembershipSet) (id : String)
    (rc relc : Option CaveatExpr) :
    addMemberViaRelationship ms id rc relc =
      addDirectMember ms id
        (match relc, rc with
         | none, none => none
         | some r, none => some r
         | none, some s => some s
         | some r, some s => some (.cand r s)) := by
  cases relc <;> cases rc <;> rfl

theorem intersectWith_nil_right (A : MembershipSet) : intersectWith A [] = [] := by
  induction A with
  | nil => rfl
  | cons p rest ih =>
    obtain ⟨k, v⟩ := p
    rw [intersectWith_cons]
    exact ih

theorem subtract_nil_right (A : MembershipSet) : subtract A [] = A := by
  induction A with
  | nil => rfl
  | cons p rest ih =>
    obtain ⟨k, v⟩ := p
    rw [subtract_cons]
    show (match subtractEntry v none with
      | none => subtract rest ([] : MembershipSet)
      | some e => (k, e) :: subtract rest ([] : MembershipSet)) = (k, v) :: rest
    cases v <;>
      · simp only [subtractEntry]
        rw [ih]

/-- C6: for every membership set `A` (a Go map, so with distinct keys):
union with the empty map leaves `A` unchanged and union of the empty set
with `A` yields `A`; intersection with the empty map yields the empty set
and intersecting the empty set with anything stays empty; subtracting the
empty map leaves `A` unchanged and subtracting anything from the empty set
leaves it empty. -/
theorem empty_map_identities (A B : MembershipSet) (hA : keysNodup A) :
    unionWith A [] = A ∧ unionWith [] A = A ∧
    intersectWith A [] = [] ∧ intersectWith [] B = [] ∧
    subtract A [] = A ∧ subtract [] B = [] := by
  refine ⟨rfl, ?_, intersectWith_nil_right A, rfl, subtract_nil_right A, rfl⟩
  have h := unionWith_disjoint A [] hA (fun id _ => rfl)
  simpa using h

/-- Witness for C4: merging `{d: C(c1)}` with `{d: C(c2)}` yields
`{d: C(OR(c1, c2))}`. -/
theorem unionWith_merge_policy_witness :
    keysNodup [("d", MembershipEntry.conditional (.leaf ⟨"c2", []⟩))] ∧
    findEntry (unionWith [("d", MembershipEntry.conditional (.leaf ⟨"c1", []⟩))]
        [("d", MembershipEntry.conditional (.leaf ⟨"c2", []⟩))]) "d" =
      some (.conditional (.cor (.leaf ⟨"c1", []⟩) (.leaf ⟨"c2", []⟩))) := by
  refine ⟨by decide, ?_⟩
  have h := unionWith_merge_policy [("d", MembershipEntry.conditional (.leaf ⟨"c1", []⟩))]
      [("d", MembershipEntry.conditional (.leaf ⟨"c2", []⟩))] "d" (by decide)
  rw [h]
  rfl

/-- Witness for C6: the identities evaluated on the concrete sets
`{a: Determined, b: C(c1)}` and `{d: C(c2)}`. -/
theorem empty_map_identities_witness :
    keysNodup [("a", MembershipEntry.determined),
        ("b", MembershipEntry.conditional (.leaf ⟨"c1", []⟩))] ∧
    (unionWith [("a", MembershipEntry.determined),
          ("b", MembershipEntry.conditional (.leaf ⟨"c1", []⟩))] [] =
        [("a", MembershipEntry.determined),
          ("b", MembershipEntry.conditional (.leaf ⟨"c1", []⟩))] ∧
      unionWith [] [("a", MembershipEntry.determined),
          ("b", MembershipEntry.conditional (.leaf ⟨"c1", []⟩))] =
        [("a", MembershipEntry.determined),
          ("b", MembershipEntry.conditional (.leaf ⟨"c1", []⟩))] ∧
      intersectWith [("a", MembershipEntry.determined),
          ("b", MembershipEntry.conditional (.leaf ⟨"c1", []⟩))] [] = [] ∧
      intersectWith [] [("d", MembershipEntry.conditional (.leaf ⟨"c2", []⟩))] = [] ∧
      subtract [("a", MembershipEntry.determined),
          ("b", MembershipEntry.conditional (.leaf ⟨"c1", []⟩))] [] =
        [("a", MembershipEntry.determined),
          ("b", MembershipEntry.conditional (.leaf ⟨"c1", []⟩))] ∧
      subtract [] [("d", MembershipEntry.conditional (.leaf ⟨"c2", []⟩))] = []) :=
  ⟨by decide,
    empty_map_identities
      [("a", MembershipEntry.determined),
        ("b", MembershipEntry.conditional (.leaf ⟨"c1", []⟩))]
      [("d", MembershipEntry.conditional (.leaf ⟨"c2", []⟩))] (by decide)⟩

/-! Claim theorems for the dispatch depth guard and debug conversion. -/

/-- C7: `CheckDepth` errors exactly in two distinguished cases: the
missing-metadata error when the request has no metadata, and `ErrMaxDepth`
when metadata is present with zero depth remaining; with metadata and
positive depth remaining it returns no error. -/
theorem CheckDepth_error_cases (md : Option ResolverMeta) :
    (CheckDepth md = some .requestMissingMetadata ↔ md = none) ∧
    (CheckDepth md = some .errMaxDepth ↔
      ∃ m, md = some m ∧ m.DepthRemaining = 0) ∧
    (CheckDepth md = none ↔ ∃ m, md = some m ∧ 0 < m.DepthRemaining) ∧
    DispatchError.requestMissingMetadata ≠ DispatchError.errMaxDepth := by
  refine ⟨?_, ?_, ?_, by decide⟩ <;> cases md with
  | none => simp [CheckDepth]
  | some m =>
    by_cases h : m.DepthRemaining = 0 <;>
      simp [CheckDepth, h, Nat.pos_iff_ne_zero]

theorem flatMap_pair_length {α β : Type} (l : List α) (f g : α → β) :
    (l.flatMap (fun a => [f a, g a])).length = 2 * l.length := by
  induction l with
  | nil => rfl
  | cons a rest ih =>
    simp only [List.flatMap_cons, List.length_append, List.length_cons, ih,
      List.length_nil, List.length_cons]
    omega

theorem flatMap_pair_getElem_even {α β : Type} (l : List α) (f g : α → β) (i : Nat) :
    (l.flatMap (fun a => [f a, g a]))[2 * i]? = (l[i]?).map f := by
  induction l generalizing i with
  | nil => simp
  | cons a rest ih =>
    cases i with
    | zero => simp [List.flatMap_cons]
    | succ n =>
      have h2 : 2 * (n + 1) = 2 * n + 1 + 1 := by omega
      simp only [List.flatMap_cons, List.cons_append, List.nil_append, h2,
        List.getElem?_cons_succ, ih, List.getElem?_cons_succ]

theorem flatMap_pair_getElem_odd {α β : Type} (l : List α) (f g : α → β) (i : Nat) :
    (l.flatMap (fun a => [f a, g a]))[2 * i + 1]? = (l[i]?).map g := by
  induction l generalizing i with
  | nil => simp
  | cons a rest ih =>
    cases i with
    | zero => simp [List.flatMap_cons]
    | succ n =>
      have h2 : 2 * (n + 1) + 1 = 2 * n + 1 + 1 + 1 := by omega
      simp only [List.flatMap_cons, List.cons_append, List.nil_append, h2,
        List.getElem?_cons_succ, ih]

/-- C8: for every check debug trace whose sub-problems list is non-empty,
`convertCheckTrace` appends two entries per resource id of the trace's
request: the first carrying the converted sub-problem traces as its
resolution, the second carrying the was-cached-result flag — so each
resource id appears twice in the returned list. -/
theorem convertCheckTrace_appends_two_per_resource (ct : CheckDebugTrace)
    (hsubs : ct.SubProblems ≠ []) :
    (convertCheckTrace ct).length = 2 * ct.Request.ResourceIds.length ∧
    ∀ i : Nat, i < ct.Request.ResourceIds.length →
      ((convertCheckTrace ct)[2 * i]?).map
          (fun t => (t.Resource.ObjectId, t.Resolution)) =
        (ct.Request.ResourceIds[i]?).map (fun rid =>
          (rid, ResolutionV1.subProblems (convertCheckTraceList ct.SubProblems))) ∧
      ((convertCheckTrace ct)[2 * i + 1]?).map
          (fun t => (t.Resource.ObjectId, t.Resolution)) =
        (ct.Request.ResourceIds[i]?).map (fun rid =>
          (rid, ResolutionV1.wasCachedResult ct.IsCachedResult)) := by
  obtain ⟨req, rrt, results, cached, subs⟩ := ct
  simp only [CheckDebugTrace.SubProblems] at hsubs
  simp only [CheckDebugTrace.Request, CheckDebugTrace.SubProblems,
    CheckDebugTrace.IsCachedResult]
  have hne : subs.isEmpty = false := by
    cases subs with
    | nil => exact absurd rfl hsubs
    | cons a l => rfl
  unfold convertCheckTrace
  simp only [hne, Bool.false_eq_true, if_false, List.cons_append, List.nil_append]
  refine ⟨flatMap_pair_length _ _ _, fun i hi => ⟨?_, ?_⟩⟩
  · rw [flatMap_pair_getElem_even]
    cases req.ResourceIds[i]? <;> rfl
  · rw [flatMap_pair_getElem_odd]
    cases req.ResourceIds[i]? <;> rfl

/-- Witness for C8: the trace `exTraceC8` has one resource id and one
sub-problem; its conversion has two entries, the first resolving to the
converted sub-problems and the second to the cached-result flag. -/
theorem convertCheckTrace_appends_two_witness :
    exTraceC8.SubProblems ≠ [] ∧
    (convertCheckTrace exTraceC8).length = 2 * exTraceC8.Request.ResourceIds.length ∧
    ((convertCheckTrace exTraceC8)[2 * 0]?).map
        (fun t => (t.Resource.ObjectId, t.Resolution)) =
      (exTraceC8.Request.ResourceIds[0]?).map (fun rid =>
        (rid, ResolutionV1.subProblems (convertCheckTraceList exTraceC8.SubProblems))) ∧
    ((convertCheckTrace exTraceC8)[2 * 0 + 1]?).map
        (fun t => (t.Resource.ObjectId, t.Resolution)) =
      (exTraceC8.Request.ResourceIds[0]?).map (fun rid =>
        (rid, ResolutionV1.wasCachedResult exTraceC8.IsCachedResult)) := by
  have h := convertCheckTrace_appends_two_per_resource exTraceC8 (List.cons_ne_nil _ _)
  exact ⟨List.cons_ne_nil _ _, h.1, (h.2 0 (by decide)).1, (h.2 0 (by decide)).2⟩

/-- C9: every entry produced by `convertCheckTrace` has result
`hasPermission` iff the trace's results map holds its resource id with
membership `MEMBER`; in particular a `CAVEATED_MEMBER` result is reported as
`noPermission`. -/
theorem convertCheckTrace_result_member_iff (ct : CheckDebugTrace)
    (t : CheckDebugTraceV1) (ht : t ∈ convertCheckTrace ct) :
    (t.Result = .hasPermission ↔
      ∃ r, lookupResult ct.Results t.Resource.ObjectId = some r ∧
        r.Membership = .member) ∧
    (∀ r, lookupResult ct.Results t.Resource.ObjectId = some r →
      r.Membership = .caveatedMember → t.Result = .noPermission) := by
  obtain ⟨req, rrt, results, cached, subs⟩ := ct
  simp only [CheckDebugTrace.Results]
  unfold convertCheckTrace at ht
  simp only [List.mem_flatMap, List.mem_append, List.mem_singleton] at ht
  obtain ⟨rid, _hmem, ht⟩ := ht
  have hcommon : t.Resource.ObjectId = rid ∧
      t.Result = (match lookupResult results rid with
        | some found =>
          if found.Membership = .member then Permissionship.hasPermission
          else Permissionship.noPermission
        | none => Permissionship.noPermission) := by
    rcases ht with h | h
    · cases hs : subs.isEmpty with
      | true => rw [hs] at h; simp at h
      | false =>
        rw [hs] at h
        simp only [Bool.false_eq_true, if_false, List.mem_singleton] at h
        subst h
        exact ⟨rfl, rfl⟩
    · subst h
      exact ⟨rfl, rfl⟩
  obtain ⟨hid, hres⟩ := hcommon
  rw [hid, hres]
  cases hlu : lookupResult results rid with
  | none => simp
  | some found =>
    by_cases hm : found.Membership = .member
    · simp only [hm, if_true]
      refine ⟨⟨fun _ => ⟨found, rfl, hm⟩, fun _ => trivial⟩, ?_⟩
      intro r hr hcav
      rw [Option.some_inj] at hr
      rw [hr] at hm
      rw [hm] at hcav
      exact absurd hcav (by decide)
    · simp only [hm, if_false]
      constructor
      · constructor
        · intro h
          exact absurd h (by decide)
        · rintro ⟨r, hr, hmem⟩
          rw [Option.some_inj] at hr
          exact absurd (hr ▸ hmem) hm
      · intro r hr hcav
        trivial

/-- Witness for C9: converting `exTraceC9`, whose only resource id `doc1` is
a caveated member, yields the entry `exEntryC9` with result
`noPermission`. -/
theorem convertCheckTrace_result_member_witness :
    exEntryC9.Result = .noPermission ∧
    lookupResult exTraceC9.Results "doc1" = some ⟨.caveatedMember⟩ := by
  have hconv : convertCheckTrace exTraceC9 = [exEntryC9] := rfl
  have hmem : exEntryC9 ∈ convertCheckTrace exTraceC9 := by
    rw [hconv]
    exact List.mem_singleton.mpr rfl
  exact ⟨(convertCheckTrace_result_member_iff exTraceC9 exEntryC9 hmem).2
      ⟨.caveatedMember⟩ rfl rfl,
    rfl⟩

theorem convertCheckTrace_eq_nil_iff (ct : CheckDebugTrace) :
    convertCheckTrace ct = [] ↔ ct.Request.ResourceIds = [] := by
  obtain ⟨req, rrt, results, cached, subs⟩ := ct
  simp only [CheckDebugTrace.Request]
  unfold convertCheckTrace
  constructor
  · intro h
    cases hids : req.ResourceIds with
    | nil => rfl
    | cons rid rest =>
      rw [hids] at h
      simp [List.flatMap_cons] at h
  · intro h
    rw [h]
    rfl

/-- C10: `ConvertDispatchDebugInformation` indexes element 0 of the
converted trace list, and that access is out of bounds (a Go panic,
modelled as `none`) exactly when the metadata carries debug info whose
top-level request has no resource id; under the precondition that the
top-level trace's request has at least one resource id the function is
total. -/
theorem ConvertDispatchDebugInformation_panics_iff (metadata : ResponseMeta)
    (schema : String) :
    ConvertDispatchDebugInformation metadata schema = none ↔
      ∃ di, metadata.DebugInfo = some di ∧ di.Check.Request.ResourceIds = [] := by
  obtain ⟨odi⟩ := metadata
  cases odi with
  | none => simp [ConvertDispatchDebugInformation]
  | some di =>
    simp only [ConvertDispatchDebugInformation]
    cases h : convertCheckTrace di.Check with
    | nil =>
      have hids := (convertCheckTrace_eq_nil_iff di.Check).mp h
      simp [hids]
    | cons t rest =>
      have hne : di.Check.Request.ResourceIds ≠ [] := by
        intro hids
        have := (convertCheckTrace_eq_nil_iff di.Check).mpr hids
        rw [h] at this
        exact absurd this (List.cons_ne_nil _ _)
      simp [hne]

/-! Cross-checks of the spec-modelled algebra against concrete expectations
of the repository's membership-set test file. -/

example : addDirectMember [("somedoc", .conditional (.leaf ⟨"c1", []⟩))] "somedoc"
    (some (.leaf ⟨"c2", []⟩)) =
    [("somedoc", .conditional (.cor (.leaf ⟨"c1", []⟩) (.leaf ⟨"c2", []⟩)))] := by decide

example : addDirectMember [("somedoc", .conditional (.leaf ⟨"c1", []⟩))] "somedoc" none =
    [("somedoc", .determined)] := by decide

example : addDirectMember [("somedoc", .determined)] "somedoc"
    (some (.leaf ⟨"c1", []⟩)) = [("somedoc", .determined)] := by decide

example : addMemberViaRelationship [("somedoc", .conditional (.leaf ⟨"c0", []⟩))] "somedoc"
    (some (.leaf ⟨"c1", []⟩)) (some (.leaf ⟨"c2", []⟩)) =
    [("somedoc", .conditional (.cor (.leaf ⟨"c0", []⟩)
      (.cand (.leaf ⟨"c2", []⟩) (.leaf ⟨"c1", []⟩))))] := by decide

example : addMemberViaRelationship [] "somedoc" none (some (.leaf ⟨"somecaveat", []⟩)) =
    [("somedoc", .conditional (.leaf ⟨"somecaveat", []⟩))] := by decide

example : subtract [("somedoc", .determined)] [("somedoc", .conditional (.leaf ⟨"c2", []⟩))] =
    [("somedoc", .conditional (.cnot (.leaf ⟨"c2", []⟩)))] := by decide

example : subtract [("somedoc", .conditional (.leaf ⟨"c1", []⟩))]
    [("somedoc", .conditional (.leaf ⟨"c2", []⟩))] =
    [("somedoc", .conditional (.cand (.leaf ⟨"c1", []⟩) (.cnot (.leaf ⟨"c2", []⟩))))] := by decide

example : intersectWith [("a", .determined), ("b", .conditional (.leaf ⟨"c1", []⟩))]
    [("b", .conditional (.leaf ⟨"c2", []⟩)), ("c", .determined)] =
    [("b", .conditional (.cand (.leaf ⟨"c1", []⟩) (.leaf ⟨"c2", []⟩)))] := by decide

example : hasDeterminedMember [("somedoc", .determined)] = true := by decide

example : isEmpty ([] : MembershipSet) = true := by decide

end SpiceDB
